import Mathlib

/-!
Verification development for the ts-linker-sdk WebSocket client
(src/index.ts, class Client).  The client is embedded shallowly:

* JS strings are modelled as List Char; String.prototype.split with a
  one-character separator is splitOnChar, and String.prototype.replace
  with a string pattern and empty replacement (which replaces the FIRST
  occurrence only) is jsReplaceFirst.
* The header table (setRequestProperty / getRequestProperty /
  getResponseProperty) is translated line by line from the source;
  a JS undefined result is modelled as Option.none.
* The pending-call registry (this.requestCallback, a JS object keyed by
  numbers) is an association list; the two closure shapes stored in it
  (the one-shot closure built by asyncSend and the listener built by
  ping via addMessageListener) are the Entry inductive.
* Fields the constructor never initialises keep type Option; reading a
  property of undefined raises a TypeError, modelled explicitly.
* Packet.pack / Packet.unPack and Utils.crc32 live in files that are
  not part of the sources (src only contains index.ts); where needed
  they are modelled from the spec and marked as such.
-/

/-- JS String.prototype.split with a single-character separator:
splitOnChar sep s cuts s at every occurrence of sep; like in JS,
the result always has at least one (possibly empty) part, and a
trailing separator yields a trailing empty part. -/
def splitOnChar (sep : Char) : List Char → List (List Char)
  | [] => [[]]
  | c :: cs =>
    if c = sep then [] :: splitOnChar sep cs
    else
      (c :: (splitOnChar sep cs).headD []) :: (splitOnChar sep cs).tail

/-- JS String.prototype.replace with a string pattern and the empty
replacement string: removes the first occurrence of pat (the source only
ever calls replace(pattern, '')). -/
def jsReplaceFirst : List Char → List Char → List Char
  | [], _ => []
  | c :: cs, pat =>
    if pat.isPrefixOf (c :: cs) then (c :: cs).drop pat.length
    else c :: jsReplaceFirst cs pat

/-- Shared lookup loop of getRequestProperty / getResponseProperty
(src/index.ts 165-173 and 184-194): split the header on every
character ; then, for the first part whose split on = has the given
key in position 0, return position 1 of that split.  The outer none
means no part matched (the loop fell through); an inner none models the
JS undefined produced by kv[1] when the matching part contains no =. -/
def propFind (header key : List Char) : Option (Option (List Char)) :=
  (splitOnChar ';' header).findSome? fun t =>
    let kv := splitOnChar '=' t
    if kv[0]? = some key then some kv[1]? else none

/-- Client.getRequestProperty (src/index.ts 165-173): returns kv[1] for
the first matching part and falls off the function (JS undefined,
modelled none) when no part matches. -/
def getRequestProperty (header key : List Char) : Option (List Char) :=
  (propFind header key).bind id

/-- Client.getResponseProperty (src/index.ts 184-194): same loop, but a
missed lookup returns the empty string (the final return statement),
not undefined. -/
def getResponseProperty (header key : List Char) : Option (List Char) :=
  match propFind header key with
  | none => some []
  | some r => r

/-- String coercion of JS undefined: concatenating undefined into a
string produces the characters of the word undefined
(key + '=' + v + ';' with v undefined). -/
def undefinedStr : List Char := ("undefined").data

/-- Client.setRequestProperty (src/index.ts 157-162): reads the current
value v of the key, removes the first occurrence of the substring
key=v; from the header string, then appends key=value; at the end. -/
def setRequestProperty (header key value : List Char) : List Char :=
  let v := getRequestProperty header key
  let removed := jsReplaceFirst header (key ++ '=' :: (v.getD undefinedStr ++ [';']))
  removed ++ key ++ '=' :: (value ++ [';'])

/-- Encoding of a well-formed header state as described by the spec: an
ordered sequence of key=value; tokens.  This parameterises theorems
about the header table; the source itself works on the raw string. -/
def encodeHeader (ts : List (List Char × List Char)) : List Char :=
  (ts.map fun p => p.1 ++ '=' :: (p.2 ++ [';'])).flatten

/-- Cleanliness of a key or value: it contains neither the token
separator ; nor the key/value separator = (the protocol constraint the
spec places on header keys and values). -/
def cleanStr (s : List Char) : Prop := ';' ∉ s ∧ '=' ∉ s

instance (s : List Char) : Decidable (cleanStr s) := by
  unfold cleanStr; infer_instance

/-- WebSocket readyState constants. -/
inductive ReadyState where
  | CONNECTING
  | OPEN
  | CLOSING
  | CLOSED
deriving DecidableEq, Repr

/-- Per-call callback record.  Each flag records whether the
corresponding hook (onStart, onSuccess, onError, onEnd) is present on
the record and is a function; an absent hook is JS undefined, and
calling it raises a TypeError. -/
structure Callback where
  hasOnStart : Bool
  hasOnSuccess : Bool
  hasOnError : Bool
  hasOnEnd : Bool
deriving DecidableEq, Repr

/-- Observable hook invocations.  onSuccess carries the (normalised)
body text handed to JSON.parse; JSON decoding itself is an external
collaborator in the spec, so the parsed value is represented by its
source text.  onError carries the raw code string and message as the
asyncSend closure passes them; pingOnError carries Number(code)
(none models NaN) as the ping closure passes it. -/
inductive Event where
  | onStart
  | onSuccess (body : List Char)
  | onError (code : List Char) (message : Option (List Char))
  | pingOnError (code : Option Int) (message : Option (List Char))
  | onEnd
deriving DecidableEq, Repr

/-- The two closure shapes this client ever stores in
this.requestCallback: the one-shot closure asyncSend registers
(src/index.ts 91-118) and the listener ping registers through
addMessageListener (src/index.ts 35-47). -/
inductive Entry where
  | oneShot (cb : Callback)
  | pingL (cb : Callback)
deriving DecidableEq, Repr

/-- Errors thrown by the modelled code paths. -/
inductive JsErr where
  | typeError
  | notConnected
  | malformed
  | oversized
deriving DecidableEq, Repr

instance {ε α : Type} [DecidableEq ε] [DecidableEq α] : DecidableEq (Except ε α) := fun x y =>
  match x, y with
  | Except.error a, Except.error b =>
    if h : a = b then isTrue (by rw [h]) else isFalse (by simp [h])
  | Except.ok a, Except.ok b =>
    if h : a = b then isTrue (by rw [h]) else isFalse (by simp [h])
  | Except.error _, Except.ok _ => isFalse (by simp)
  | Except.ok _, Except.error _ => isFalse (by simp)

/-- Arguments of a Packet().pack call issued by send paths: pack is
called as pack(operator, sequence, this.requestHeader, body); the
header argument is Option because this.requestHeader may be
undefined. -/
structure Frame where
  operator : Nat
  sequence : Nat
  header : Option (List Char)
  body : List Char
deriving DecidableEq, Repr

/-- Registry of pending calls: this.requestCallback as an association
list from the numeric key to the stored closure.  A JS object holds at
most one property per key. -/
abbrev Registry : Type := List (Nat × Entry)

/-- Property-presence test, this.requestCallback.hasOwnProperty(k). -/
def regHas (reg : Registry) (k : Nat) : Bool := reg.any fun p => p.1 == k

/-- Property read, this.requestCallback[k]. -/
def regGet (reg : Registry) (k : Nat) : Option Entry :=
  (reg.find? fun p => p.1 == k).map Prod.snd

/-- Property assignment, this.requestCallback[k] = v: replaces the
value in place when the key exists, appends a new property
otherwise. -/
def regSet (reg : Registry) (k : Nat) (v : Entry) : Registry :=
  if reg.any fun p => p.1 == k then
    reg.map fun p => if p.1 == k then (k, v) else p
  else reg ++ [(k, v)]

/-- Property deletion, delete this.requestCallback[k]. -/
def regDelete (reg : Registry) (k : Nat) : Registry :=
  reg.filter fun p => !(p.1 == k)

/-- Client instance state.  requestCallback, requestHeader and
responseHeader are Option because the constructor (src/index.ts 21-27)
assigns only maxPayload, url, readyStateCallback and socket, leaving
those three fields undefined; socketReady stands for
this.socket.readyState. -/
structure ClientState where
  requestCallback : Option Registry
  requestHeader : Option (List Char)
  responseHeader : Option (List Char)
  maxPayload : Nat
  socketReady : ReadyState
deriving DecidableEq

/-- Maximum payload constant, 1024 * 1024 (src/index.ts 5). -/
def MAX_PAYLOAD : Nat := 1024 * 1024

/-- State a freshly constructed Client is in (src/index.ts 21-27): the
constructor sets maxPayload and opens the socket but never initialises
requestCallback, requestHeader or responseHeader.  The readyState the
connection has reached is a parameter. -/
def newClientState (ready : ReadyState) : ClientState :=
  { requestCallback := none
    requestHeader := none
    responseHeader := none
    maxPayload := MAX_PAYLOAD
    socketReady := ready }

/-- Result of running a closure body: the hook invocations it performed
in order, and whether it crashed with a TypeError (from calling an
absent hook) before completing. -/
structure ClosureResult where
  events : List Event
  crashed : Bool
deriving DecidableEq, Repr

/-- JS Number() coercion of the strings that reach it here: the empty
string coerces to 0, a digit string to its value, anything else to NaN
(modelled none). -/
def jsNumber (s : List Char) : Option Int :=
  if s = [] then some 0
  else if s.all Char.isDigit then
    some (s.foldl (fun a c => a * 10 + ((c.toNat : Int) - 48)) 0)
  else none

/-- Body of the one-shot closure asyncSend registers (src/index.ts
91-117), run against the response header the dispatcher just stored and
the body text handed to JSON.parse.  Every hook invocation is guarded
by hasOwnProperty plus a typeof check, so the closure never calls an
absent hook.  The deletion of the registry entry (line 117) is applied
by the dispatcher model, onMessagePacket. -/
def oneShotClosureRun (cb : Callback) (respHeader data_ : List Char) : ClosureResult :=
  let part1 :=
    match getResponseProperty respHeader ("code").data with
    | some code =>
      if cb.hasOnError then
        [Event.onError code (getResponseProperty respHeader ("message").data)]
      else []
    | none =>
      if cb.hasOnSuccess then [Event.onSuccess data_] else []
  { events := part1 ++ (if cb.hasOnEnd then [Event.onEnd] else [])
    crashed := false }

/-- Body of the listener ping registers (src/index.ts 35-47).  The only
guard is onError !== null, which an absent (undefined) hook also
passes, and onSuccess / onEnd are invoked unconditionally; calling an
absent hook crashes with a TypeError. -/
def pingClosureRun (cb : Callback) (respHeader data_ : List Char) : ClosureResult :=
  match getResponseProperty respHeader ("code").data with
  | some code =>
    if cb.hasOnError then
      if cb.hasOnEnd then
        { events := [Event.pingOnError (jsNumber code)
            (getResponseProperty respHeader ("message").data), Event.onEnd]
          crashed := false }
      else
        { events := [Event.pingOnError (jsNumber code)
            (getResponseProperty respHeader ("message").data)]
          crashed := true }
    else { events := [], crashed := true }
  | none =>
    if cb.hasOnSuccess then
      if cb.hasOnEnd then
        { events := [Event.onSuccess data_, Event.onEnd], crashed := false }
      else { events := [Event.onSuccess data_], crashed := true }
    else { events := [], crashed := true }

/-- Result of running one public client method: final state, hook
invocations, pack/send calls issued, and the error thrown (none when
the method returned normally). -/
structure RunResult where
  st : ClientState
  events : List Event
  sends : List Frame
  err : Option JsErr
deriving DecidableEq

/-- Client.asyncSend (src/index.ts 71-129), parameterised by the hash
Utils.crc32 (a black-box string-to-integer function per the spec; its
source file is not under src) and by the send-time clock value
new Date().getTime().  Steps in source order: readyState guard, guarded
onStart, key generation, registration of the one-shot closure (a
TypeError when this.requestCallback is undefined), then
send(pack(crc32(operator), sequence, this.requestHeader, body)). -/
def asyncSendRun (crc32 : String → Nat) (st : ClientState) (operator : String)
    (param : List Char) (cb : Callback) (now : Nat) : RunResult :=
  if st.socketReady ≠ ReadyState.OPEN then
    { st := st, events := [], sends := [], err := some JsErr.notConnected }
  else
    let evs := if cb.hasOnStart then [Event.onStart] else []
    let sequence := now
    let listener := crc32 operator + sequence
    match st.requestCallback with
    | none => { st := st, events := evs, sends := [], err := some JsErr.typeError }
    | some reg =>
      let st2 := { st with requestCallback := some (regSet reg listener (Entry.oneShot cb)) }
      let frame : Frame :=
        { operator := crc32 operator, sequence := sequence,
          header := st.requestHeader, body := param }
      { st := st2, events := evs, sends := [frame], err := none }

/-- Client.addMessageListener (src/index.ts 137-139): stores a listener
under crc32 of the operator argument.  ping passes the number 0, which
JS coerces to the string 0 at the hash boundary. -/
def addMessageListener (crc32 : String → Nat) (reg : Registry)
    (operatorArg : String) (l : Entry) : Registry :=
  regSet reg (crc32 operatorArg) l

/-- Client.ping (src/index.ts 30-51): readyState guard, registration of
the ping listener via addMessageListener(0, ...) (a TypeError when
this.requestCallback is undefined), then send(pack(0, 0,
this.requestHeader, body)). -/
def pingRun (crc32 : String → Nat) (st : ClientState) (param : List Char)
    (cb : Callback) : RunResult :=
  if st.socketReady ≠ ReadyState.OPEN then
    { st := st, events := [], sends := [], err := some JsErr.notConnected }
  else
    match st.requestCallback with
    | none => { st := st, events := [], sends := [], err := some JsErr.typeError }
    | some reg =>
      let reg2 := addMessageListener crc32 reg "0" (Entry.pingL cb)
      let st2 := { st with requestCallback := some reg2 }
      let frame : Frame :=
        { operator := 0, sequence := 0, header := st.requestHeader, body := param }
      { st := st2, events := [], sends := [frame], err := none }

/-- Client.setMaxPayload (src/index.ts 152-154). -/
def setMaxPayloadRun (st : ClientState) (m : Nat) : ClientState :=
  { st with maxPayload := m }

/-- Client.setRequestProperty run against the instance state: the first
step, getRequestProperty, reads this.requestHeader.split, a TypeError
when the field is still undefined. -/
def setRequestPropertyRun (st : ClientState) (key value : List Char) :
    Except JsErr ClientState :=
  match st.requestHeader with
  | none => Except.error JsErr.typeError
  | some h => Except.ok { st with requestHeader := some (setRequestProperty h key value) }

/-- Client.getRequestProperty run against the instance state. -/
def getRequestPropertyRun (st : ClientState) (key : List Char) :
    Except JsErr (Option (List Char)) :=
  match st.requestHeader with
  | none => Except.error JsErr.typeError
  | some h => Except.ok (getRequestProperty h key)

/-- Decoded protocol frame as produced by Packet.unPack and consumed by
ws.onmessage (src/index.ts 239-252). -/
structure Packet where
  operator : Nat
  sequence : Nat
  headerLength : Nat
  bodyLength : Nat
  header : List Char
  body : List Char
deriving DecidableEq, Repr

/-- Big-endian read of a 4-byte unsigned integer from a byte list. -/
def readU32 (b : List Nat) (i : Nat) : Nat :=
  b.getD i 0 * 16777216 + b.getD (i + 1) 0 * 65536 + b.getD (i + 2) 0 * 256 + b.getD (i + 3) 0

/-- Big-endian read of an 8-byte integer from a byte list. -/
def readU64 (b : List Nat) (i : Nat) : Nat :=
  readU32 b i * 4294967296 + readU32 b (i + 4)

/-- Modelled from the spec: Packet.unPack lives in src/packet.ts, which
is not among the sources.  Spec 4.1 and the wire table in 6: read the
four fixed-width fields (4-byte operator, 8-byte sequence, 4-byte
headerLength, 4-byte bodyLength, a 20-byte preamble), then slice
exactly headerLength bytes of header and bodyLength bytes of body;
fail with MalformedFrame when the buffer is shorter than the declared
lengths.  Endianness is fixed arbitrarily (big-endian); payload bytes
are mapped to characters directly, which is exact for the ASCII
payloads used here. -/
def unPack (b : List Nat) : Except JsErr Packet :=
  if b.length < 20 then Except.error JsErr.malformed
  else
    let hl := readU32 b 12
    let bl := readU32 b 16
    if b.length < 20 + hl + bl then Except.error JsErr.malformed
    else
      Except.ok
        { operator := readU32 b 0
          sequence := readU64 b 4
          headerLength := hl
          bodyLength := bl
          header := ((b.drop 20).take hl).map Char.ofNat
          body := ((b.drop (20 + hl)).take bl).map Char.ofNat }

/-- Empty-body normalisation in the matched branch of ws.onmessage
(src/index.ts 247-249): an empty decoded body is replaced by the
two-character object literal before JSON.parse. -/
def dispatchBody (b : List Char) : List Char :=
  if b = [] then ("\x7b\x7d").data else b

/-- Dispatch of a decoded packet, the part of ws.onmessage after the
size check (src/index.ts 245-252): the lookup key is
Number(packet.operator) + Number(packet.sequence); a missed lookup
drops the frame; a hit normalises the body, stores packet.header into
this.responseHeader, then invokes the stored closure with
JSON.parse of the body text.  The one-shot closure deletes its own
registry entry; a crash inside the listener propagates as a
TypeError.  Reading hasOwnProperty of an undefined requestCallback is
itself a TypeError. -/
def onMessagePacket (st : ClientState) (pkt : Packet) :
    Except JsErr (ClientState × List Event) :=
  let operator := pkt.operator + pkt.sequence
  match st.requestCallback with
  | none => Except.error JsErr.typeError
  | some reg =>
    match regGet reg operator with
    | none => Except.ok (st, [])
    | some entry =>
      let body := dispatchBody pkt.body
      let st1 := { st with responseHeader := some pkt.header }
      match entry with
      | Entry.oneShot cb =>
        let r := oneShotClosureRun cb pkt.header body
        if r.crashed then Except.error JsErr.typeError
        else
          Except.ok ({ st1 with requestCallback := some (regDelete reg operator) }, r.events)
      | Entry.pingL cb =>
        let r := pingClosureRun cb pkt.header body
        if r.crashed then Except.error JsErr.typeError
        else Except.ok (st1, r.events)

/-- Full ws.onmessage handler on a binary message (src/index.ts
233-264): unPack first, then the size check
packet.headerLength + packet.bodyLength + 20 > MAX_PAYLOAD — the
comparison is against the module constant MAX_PAYLOAD, not against
this.maxPayload — then the dispatch.  Errors are rethrown by the
surrounding try/catch. -/
def onMessageData (st : ClientState) (buf : List Nat) :
    Except JsErr (ClientState × List Event) :=
  match unPack buf with
  | Except.error e => Except.error e
  | Except.ok pkt =>
    if pkt.headerLength + pkt.bodyLength + 20 > MAX_PAYLOAD then
      Except.error JsErr.oversized
    else onMessagePacket st pkt

/-- Reconnect-relevant state: this.reconnectTimes (none models the NaN
or undefined the field holds before the first onopen: the constructor
never initialises it, undefined * 1000 and undefined + 1 are NaN, and
NaN propagates) and this.reconnectLock (undefined and false are
interchangeable under the !this.reconnectLock test). -/
structure ConnState where
  reconnectTimes : Option Nat
  reconnectLock : Bool
deriving DecidableEq, Repr

/-- Events driving the reconnect machine: a close or error event firing
this.reconnect() (src/index.ts 213-231, 269-280), the setTimeout
callback firing, and a successful onopen (src/index.ts 203-211). -/
inductive ConnEvent where
  | triggerReconnect
  | timerFire
  | openEvent
deriving DecidableEq, Repr

/-- One step of the reconnect machine; the second component lists the
setTimeout delays scheduled by the step (none models a NaN delay).
reconnect(): under !reconnectLock, set the lock and schedule a timer
with delay reconnectTimes * 1000.  The timer callback: increment
reconnectTimes, call connect(), release the lock.  onopen: reset
reconnectTimes to 0. -/
def connStep (s : ConnState) : ConnEvent → ConnState × List (Option Nat)
  | ConnEvent.triggerReconnect =>
    if !s.reconnectLock then
      ({ s with reconnectLock := true }, [s.reconnectTimes.map fun t => t * 1000])
    else (s, [])
  | ConnEvent.timerFire =>
    ({ reconnectTimes := s.reconnectTimes.map fun t => t + 1, reconnectLock := false }, [])
  | ConnEvent.openEvent =>
    ({ s with reconnectTimes := some 0 }, [])

/-- One failure round: a close/error event triggers reconnect, then the
scheduled timer fires (the attempt is issued and itself fails, leading
to the next round). -/
def connRound (s : ConnState) : ConnState × List (Option Nat) :=
  let r1 := connStep s ConnEvent.triggerReconnect
  let r2 := connStep r1.1 ConnEvent.timerFire
  (r2.1, r1.2 ++ r2.2)

/-- n consecutive failure rounds, collecting every scheduled delay. -/
def connRounds : Nat → ConnState → ConnState × List (Option Nat)
  | 0, s => (s, [])
  | n + 1, s =>
    let r1 := connRound s
    let r2 := connRounds n r1.1
    (r2.1, r1.2 ++ r2.2)

/-- Callback record with all four hooks present, used as a concrete
input in several theorems. -/
def fullCb : Callback :=
  { hasOnStart := true, hasOnSuccess := true, hasOnError := true, hasOnEnd := true }

/-- Callback record with no hooks at all. -/
def emptyCb : Callback :=
  { hasOnStart := false, hasOnSuccess := false, hasOnError := false, hasOnEnd := false }

/-- Client state whose late-initialised fields hold values: a registry,
a request header string, the default maxPayload, and an OPEN socket. -/
def initState (reg : Registry) (rh : List Char) : ClientState :=
  { requestCallback := some reg
    requestHeader := some rh
    responseHeader := none
    maxPayload := MAX_PAYLOAD
    socketReady := ReadyState.OPEN }

/-- A concrete admissible hash function (the spec treats Utils.crc32 as
a black box from strings to 32-bit integers). -/
def constHash1 : String → Nat := fun _ => 1

/-- Inbound buffer whose declared lengths (headerLength 4294967295,
bodyLength 4294967295) exceed every limit while the buffer itself holds
only the 20-byte preamble. -/
def truncatedBuf : List Nat :=
  [0, 0, 0, 0, 0, 0, 0, 0, 0, 0, 0, 0, 255, 255, 255, 255, 255, 255, 255, 255]

/-- Complete inbound buffer declaring headerLength 1048576 and
bodyLength 0 (total 1048596 bytes, above MAX_PAYLOAD) and actually
containing the declared bytes. -/
def oversizedBuf : List Nat :=
  [0, 0, 0, 0, 0, 0, 0, 0, 0, 0, 0, 0, 0, 16, 0, 0, 0, 0, 0, 0] ++ List.replicate 1048576 0

/-- Complete inbound buffer declaring headerLength 60 and bodyLength 70
(total 150 bytes). -/
def smallFrameBuf : List Nat :=
  [0, 0, 0, 0, 0, 0, 0, 0, 0, 0, 0, 0, 0, 0, 0, 60, 0, 0, 0, 70] ++ List.replicate 130 0

/-- Pattern string key=value; that setRequestProperty removes. -/
def patOf (k w : List Char) : List Char := k ++ '=' :: (w ++ [';'])

lemma find?_none_append {p : Nat × Entry → Bool} {l1 l2 : Registry}
    (h : l1.find? p = none) : (l1 ++ l2).find? p = l2.find? p := by
  induction l1 with
  | nil => rfl
  | cons a l ih =>
    cases ha : p a with
    | true =>
      rw [List.find?_cons_of_pos _ ha] at h
      cases h
    | false =>
      rw [List.find?_cons_of_neg _ (by simp [ha])] at h
      rw [List.cons_append, List.find?_cons_of_neg _ (by simp [ha])]
      exact ih h

lemma find?_map_set (k : Nat) (v : Entry) :
    ∀ reg : Registry, (reg.any fun p => p.1 == k) = true →
      ((reg.map fun p => if p.1 == k then (k, v) else p).find? fun p => p.1 == k) = some (k, v) := by
  intro reg
  induction reg with
  | nil => intro h; cases h
  | cons a l ih =>
    intro h
    cases ha : (a.1 == k) with
    | true =>
      rw [List.map_cons, if_pos ha]
      exact List.find?_cons_of_pos _ (by simp)
    | false =>
      rw [List.map_cons, if_neg (by simp [ha])]
      rw [List.find?_cons_of_neg _ (by simp [ha])]
      apply ih
      rcases (List.any_eq_true.mp h) with ⟨x, hx, hpx⟩
      rcases List.mem_cons.mp hx with h1 | h1
      · rw [h1] at hpx; simp [ha] at hpx
      · exact List.any_eq_true.mpr ⟨x, h1, hpx⟩

lemma regGet_regSet (reg : Registry) (k : Nat) (v : Entry) :
    regGet (regSet reg k v) k = some v := by
  unfold regGet regSet
  by_cases h : (reg.any fun p => p.1 == k) = true
  · rw [if_pos h, find?_map_set k v reg h]
    rfl
  · rw [if_neg h]
    have hnone : (reg.find? fun p => p.1 == k) = none := by
      apply List.find?_eq_none.mpr
      intro x hx
      intro hpx
      exact h (List.any_eq_true.mpr ⟨x, hx, hpx⟩)
    rw [find?_none_append hnone]
    rw [List.find?_cons_of_pos _ (by simp)]
    rfl

lemma regGet_regDelete (reg : Registry) (k : Nat) :
    regGet (regDelete reg k) k = none := by
  unfold regGet regDelete
  rw [List.find?_eq_none.mpr]
  · rfl
  · intro x hx
    have := (List.mem_filter.mp hx).2
    simp only [Bool.not_eq_true'] at this
    simp [this]

lemma pingClosureRun_full (hdr body : List Char) :
    (pingClosureRun fullCb hdr body).crashed = false ∧
      (pingClosureRun fullCb hdr body).events ≠ [] := by
  unfold pingClosureRun fullCb
  cases getResponseProperty hdr (("code").data) <;> simp

lemma connRounds_inv (n t : Nat) :
    connRounds n { reconnectTimes := some t, reconnectLock := false } =
      ({ reconnectTimes := some (t + n), reconnectLock := false },
        (List.range n).map fun i => some ((t + i) * 1000)) := by
  induction n generalizing t with
  | zero => simp [connRounds]
  | succ n ih =>
    have hstep : connRound { reconnectTimes := some t, reconnectLock := false } =
        ({ reconnectTimes := some (t + 1), reconnectLock := false }, [some (t * 1000)]) := by
      rfl
    rw [connRounds, hstep, ih (t + 1)]
    rw [List.range_succ_eq_map, List.map_cons, List.map_map]
    simp only [Prod.mk.injEq]
    constructor
    · have h1 : t + 1 + n = t + (n + 1) := by omega
      rw [h1]
    · simp only [List.singleton_append, Nat.add_zero]
      apply congrArg (List.cons (some (t * 1000)))
      apply List.map_congr_left
      intro i hi
      simp only [Function.comp_apply, Nat.succ_eq_add_one]
      have h2 : t + 1 + i = t + (i + 1) := by omega
      rw [h2]

/-- C1: the claim says a response header without a code key routes to
onSuccess.  In the code, getResponseProperty returns the empty string
(never undefined) for an absent key, so the typeof-undefined test in
the asyncSend closure always succeeds: for the header foo=bar;, which
has no code key, the one-shot closure fires onError with the empty code
and message strings and never fires onSuccess. -/
theorem c1_dispatch_bug :
    propFind (("foo=bar;").data) (("code").data) = none ∧
    (oneShotClosureRun fullCb (("foo=bar;").data) (("\x7b\"a\":1\x7d").data)).events =
      [Event.onError [] (some []), Event.onEnd] ∧
    (∀ bd, Event.onSuccess bd ∉
      (oneShotClosureRun fullCb (("foo=bar;").data) (("\x7b\"a\":1\x7d").data)).events) := by
  refine ⟨by decide, by decide, ?_⟩
  intro bd
  have h : (oneShotClosureRun fullCb (("foo=bar;").data) (("\x7b\"a\":1\x7d").data)).events =
      [Event.onError [] (some []), Event.onEnd] := by decide
  rw [h]
  simp

/-- C4: the constructor never initialises this.requestCallback or
this.requestHeader, so on a fresh instance with an OPEN connection,
asyncSend, ping, setRequestProperty and getRequestProperty all throw a
TypeError from accessing properties of undefined, and neither send path
hands a frame to the socket. -/
theorem c4_uninitialized :
    ∀ (crc32 : String → Nat) (op : String) (param : List Char) (cb : Callback)
      (now : Nat) (key value : List Char),
    (asyncSendRun crc32 (newClientState ReadyState.OPEN) op param cb now).err =
        some JsErr.typeError ∧
    (asyncSendRun crc32 (newClientState ReadyState.OPEN) op param cb now).sends = [] ∧
    (pingRun crc32 (newClientState ReadyState.OPEN) param cb).err = some JsErr.typeError ∧
    (pingRun crc32 (newClientState ReadyState.OPEN) param cb).sends = [] ∧
    setRequestPropertyRun (newClientState ReadyState.OPEN) key value =
        Except.error JsErr.typeError ∧
    getRequestPropertyRun (newClientState ReadyState.OPEN) key =
        Except.error JsErr.typeError := by
  intro crc32 op param cb now key value
  exact ⟨rfl, rfl, rfl, rfl, rfl, rfl⟩

/-- C5: starting from the state a successful open establishes
(reconnectTimes = 0, no lock), the Nth consecutive failure round
schedules its reconnect attempt with delay (N-1) * 1000 ms; a trigger
arriving while the lock is held schedules nothing; and an open event
resets the counter to 0. -/
theorem c5_reconnect_backoff :
    (∀ n : Nat,
      (connRounds n { reconnectTimes := some 0, reconnectLock := false }).2 =
        (List.range n).map fun i => some (i * 1000)) ∧
    (∀ s : ConnState,
      connStep { s with reconnectLock := true } ConnEvent.triggerReconnect =
        ({ s with reconnectLock := true }, [])) ∧
    (∀ s : ConnState, (connStep s ConnEvent.openEvent).1.reconnectTimes = some 0) := by
  refine ⟨?_, ?_, ?_⟩
  · intro n
    rw [connRounds_inv n 0]
    simp
  · intro s
    rfl
  · intro s
    rfl

/-- C8: the claim says every hook invocation site checks presence on
both paths.  The asyncSend path does (its closure never crashes, and
the method itself completes for every subset of hooks), but the ping
listener guards onError only against null and calls onSuccess and
onEnd unconditionally: a ping callback with no hooks crashes with a
TypeError, while the same record is safe in the one-shot closure. -/
theorem c8_counterexample :
    (pingClosureRun emptyCb [] (("\x7b\x7d").data)).crashed = true ∧
    (oneShotClosureRun emptyCb [] (("\x7b\x7d").data)).crashed = false := by
  decide

/-- C8 amended: every hook invocation on the asyncSend path is guarded,
so the one-shot closure never crashes whatever subset of hooks is
supplied and asyncSend itself completes on an initialised client; the
ping listener is only safe when onSuccess, onError and onEnd are all
present. -/
theorem c8_hook_guards :
    (∀ (cb : Callback) (hdr body : List Char),
      (oneShotClosureRun cb hdr body).crashed = false) ∧
    (∀ hdr body : List Char, (pingClosureRun fullCb hdr body).crashed = false) ∧
    (∀ (crc32 : String → Nat) (reg : Registry) (rh param : List Char) (op : String)
      (cb : Callback) (now : Nat),
      (asyncSendRun crc32 (initState reg rh) op param cb now).err = none) := by
  refine ⟨?_, ?_, ?_⟩
  · intro cb hdr body
    rfl
  · intro hdr body
    exact (pingClosureRun_full hdr body).1
  · intro crc32 reg rh param op cb now
    rfl

set_option maxRecDepth 8000 in
/-- C9: the claim says the inbound oversize check compares against the
configured maximum after setMaxPayload(m).  In the code the check in
ws.onmessage compares against the module constant MAX_PAYLOAD and
never reads this.maxPayload: after setMaxPayload(100), a complete
150-byte frame (headerLength 60, bodyLength 70) is accepted and
dispatched instead of being rejected as oversized. -/
theorem c9_max_payload_ignored :
    (setMaxPayloadRun (initState [] []) 100).maxPayload = 100 ∧
    60 + 70 + 20 > (setMaxPayloadRun (initState [] []) 100).maxPayload ∧
    onMessageData (setMaxPayloadRun (initState [] []) 100) smallFrameBuf =
      Except.ok (setMaxPayloadRun (initState [] []) 100, []) := by
  refine ⟨rfl, by decide, ?_⟩
  decide

/-- C2: the claim says every buffer whose declared lengths exceed the
limit fails with the oversize error, with the size check running before
the header and body are decoded.  In ws.onmessage the size check runs
on the result of Packet().unPack, so a buffer that declares oversized
lengths but is itself truncated fails inside unPack with MalformedFrame
and the oversize error is never reached. -/
theorem c2_counterexample :
    readU32 truncatedBuf 12 + readU32 truncatedBuf 16 + 20 > MAX_PAYLOAD ∧
    readU32 truncatedBuf 12 + readU32 truncatedBuf 16 + 20 >
      (newClientState ReadyState.OPEN).maxPayload ∧
    onMessageData (newClientState ReadyState.OPEN) truncatedBuf =
      Except.error JsErr.malformed ∧
    onMessageData (newClientState ReadyState.OPEN) truncatedBuf ≠
      Except.error JsErr.oversized := by
  refine ⟨by decide, by decide, by decide, by decide⟩

/-- C2 amended: a buffer that contains at least its declared
headerLength + bodyLength + 20 bytes (so unPack succeeds) and whose
declared total exceeds MAX_PAYLOAD (the 1 MiB module constant the
check uses) is rejected with the oversize error; the check runs after
unPack has already decoded the header and body. -/
theorem c2_amended :
    ∀ (st : ClientState) (buf : List Nat),
      20 + readU32 buf 12 + readU32 buf 16 ≤ buf.length →
      readU32 buf 12 + readU32 buf 16 + 20 > MAX_PAYLOAD →
      onMessageData st buf = Except.error JsErr.oversized := by
  intro st buf hlen hover
  unfold onMessageData unPack
  rw [if_neg (by omega), if_neg (by omega)]
  simp only []
  rw [if_pos hover]

/-- Witness for c2_amended at the concrete complete oversized buffer. -/
theorem c2_amended_witness :
    (20 + readU32 oversizedBuf 12 + readU32 oversizedBuf 16 ≤ oversizedBuf.length) ∧
    (readU32 oversizedBuf 12 + readU32 oversizedBuf 16 + 20 > MAX_PAYLOAD) ∧
    onMessageData (newClientState ReadyState.OPEN) oversizedBuf =
      Except.error JsErr.oversized := by
  have h12 : readU32 oversizedBuf 12 = 1048576 := rfl
  have h16 : readU32 oversizedBuf 16 = 0 := rfl
  have hlen : oversizedBuf.length = 1048596 := by
    unfold oversizedBuf
    rw [List.length_append, List.length_replicate]
    rfl
  have h1 : 20 + readU32 oversizedBuf 12 + readU32 oversizedBuf 16 ≤ oversizedBuf.length := by
    rw [h12, h16, hlen]
  have h2 : readU32 oversizedBuf 12 + readU32 oversizedBuf 16 + 20 > MAX_PAYLOAD := by
    rw [h12, h16]
    decide
  exact ⟨h1, h2, c2_amended _ _ h1 h2⟩

/-- C10: the claim says an empty-body matched frame is delivered to
onSuccess as an empty object.  The body is indeed normalised, but since
getResponseProperty yields the empty string for the absent code key,
the one-shot closure routes the delivery to onError, and onSuccess
never fires: a matched frame with empty header and empty body produces
onError with empty code and message. -/
theorem c10_counterexample :
    onMessagePacket (initState [(5, Entry.oneShot fullCb)] [])
        { operator := 5, sequence := 0, headerLength := 0, bodyLength := 0,
          header := [], body := [] } =
      Except.ok
        ({ requestCallback := some [], requestHeader := some [], responseHeader := some [],
           maxPayload := MAX_PAYLOAD, socketReady := ReadyState.OPEN },
         [Event.onError [] (some []), Event.onEnd]) ∧
    (∀ bd, Event.onSuccess bd ∉ [Event.onError ([] : List Char) (some []), Event.onEnd]) := by
  refine ⟨by decide, ?_⟩
  intro bd
  simp

/-- C10 amended: the matched branch of ws.onmessage normalises an empty
decoded body to the two-character object literal before JSON.parse, so
dispatching a frame with an empty body is indistinguishable from
dispatching the same frame with that literal body, and the text handed
to JSON.parse is never the empty string (which would be a parse
failure); because of the response-code lookup bug the delivery then
goes through onError, not onSuccess. -/
theorem c10_empty_body_normalized :
    (∀ (st : ClientState) (op seq hl bl : Nat) (hdr : List Char),
      onMessagePacket st
          { operator := op, sequence := seq, headerLength := hl, bodyLength := bl,
            header := hdr, body := [] } =
        onMessagePacket st
          { operator := op, sequence := seq, headerLength := hl, bodyLength := bl,
            header := hdr, body := ("\x7b\x7d").data }) ∧
    dispatchBody [] = ("\x7b\x7d").data ∧
    (∀ b : List Char, dispatchBody b ≠ []) := by
  refine ⟨?_, rfl, ?_⟩
  · intro st op seq hl bl hdr
    rfl
  · intro b
    cases b with
    | nil => decide
    | cons c cs =>
      unfold dispatchBody
      rw [if_neg (by simp)]
      simp


lemma onMessagePacket_miss (st : ClientState) (reg : Registry) (pkt : Packet)
    (hrc : st.requestCallback = some reg)
    (hget : regGet reg (pkt.operator + pkt.sequence) = none) :
    onMessagePacket st pkt = Except.ok (st, []) := by
  unfold onMessagePacket
  rw [hrc]
  simp only [hget]

lemma onMessagePacket_oneShot (st : ClientState) (reg : Registry) (pkt : Packet) (cb : Callback)
    (hrc : st.requestCallback = some reg)
    (hget : regGet reg (pkt.operator + pkt.sequence) = some (Entry.oneShot cb)) :
    onMessagePacket st pkt =
      Except.ok
        ({ st with responseHeader := some pkt.header,
                   requestCallback := some (regDelete reg (pkt.operator + pkt.sequence)) },
         (oneShotClosureRun cb pkt.header (dispatchBody pkt.body)).events) := by
  unfold onMessagePacket
  rw [hrc]
  simp only [hget]
  rfl

lemma onMessagePacket_pingL (st : ClientState) (reg : Registry) (pkt : Packet) (cb : Callback)
    (hrc : st.requestCallback = some reg)
    (hget : regGet reg (pkt.operator + pkt.sequence) = some (Entry.pingL cb))
    (hcrash : (pingClosureRun cb pkt.header (dispatchBody pkt.body)).crashed = false) :
    onMessagePacket st pkt =
      Except.ok ({ st with responseHeader := some pkt.header },
        (pingClosureRun cb pkt.header (dispatchBody pkt.body)).events) := by
  unfold onMessagePacket
  rw [hrc]
  simp only [hget]
  rw [hcrash]
  rfl

/-- C7: the claim says the ping listener registered under the hash of
operator 0 receives the inbound keep-alive frame with operatorCode 0
and sequence 0.  The spec models crc32 as a black-box hash; under an
admissible hash sending every string to 1, ping registers its listener
under key 1, while the inbound (0, 0) frame computes dispatch key
0 + 0 = 0, so the frame is dropped without invoking the listener. -/
theorem c7_counterexample :
    (pingRun constHash1 (initState [] []) [] fullCb).st.requestCallback =
      some [(1, Entry.pingL fullCb)] ∧
    onMessagePacket (pingRun constHash1 (initState [] []) [] fullCb).st
        { operator := 0, sequence := 0, headerLength := 0, bodyLength := 0,
          header := [], body := [] } =
      Except.ok ((pingRun constHash1 (initState [] []) [] fullCb).st, []) := by
  refine ⟨by decide, by decide⟩

/-- C7 amended: ping sends a frame with operatorCode 0 and sequence 0
and registers a persistent listener keyed by crc32 applied to the ping
operator argument; the inbound keep-alive frame with operatorCode 0 and
sequence 0 computes dispatch key 0 and reaches that listener exactly
when the hash value crc32 of the coerced ping operator is 0; otherwise
the frame is dropped. -/
theorem c7_ping_routing :
    ∀ (crc32 : String → Nat) (param hdr body : List Char),
      (pingRun crc32 (initState [] []) param fullCb).err = none ∧
      (pingRun crc32 (initState [] []) param fullCb).sends =
        [{ operator := 0, sequence := 0, header := some [], body := param }] ∧
      (pingRun crc32 (initState [] []) param fullCb).st.requestCallback =
        some [(crc32 "0", Entry.pingL fullCb)] ∧
      ((∃ st1 evs,
          onMessagePacket (pingRun crc32 (initState [] []) param fullCb).st
              { operator := 0, sequence := 0, headerLength := 0, bodyLength := 0,
                header := hdr, body := body } =
            Except.ok (st1, evs) ∧ evs ≠ []) ↔ crc32 "0" = 0) := by
  intro crc32 param hdr body
  refine ⟨rfl, rfl, rfl, ?_⟩
  have hreg : (pingRun crc32 (initState [] []) param fullCb).st.requestCallback =
      some [(crc32 "0", Entry.pingL fullCb)] := rfl
  by_cases hk : crc32 "0" = 0
  · constructor
    · intro _
      exact hk
    · intro _
      have hget : regGet [(crc32 "0", Entry.pingL fullCb)] (0 + 0) = some (Entry.pingL fullCb) := by
        unfold regGet
        rw [List.find?_cons_of_pos _ (by simp [hk])]
        rfl
      have hfull := pingClosureRun_full hdr (dispatchBody body)
      have hdisp := onMessagePacket_pingL _ _
        { operator := 0, sequence := 0, headerLength := 0, bodyLength := 0,
          header := hdr, body := body } fullCb hreg hget hfull.1
      exact ⟨_, _, hdisp, hfull.2⟩
  · constructor
    · intro hex
      rcases hex with ⟨st1, evs, hrun, hne⟩
      have hget : regGet [(crc32 "0", Entry.pingL fullCb)] (0 + 0) = none := by
        unfold regGet
        rw [List.find?_cons_of_neg _ (by simp [hk])]
        rfl
      have hdisp := onMessagePacket_miss _ _
        { operator := 0, sequence := 0, headerLength := 0, bodyLength := 0,
          header := hdr, body := body } hreg hget
      rw [hdisp] at hrun
      simp only [Except.ok.injEq, Prod.mk.injEq] at hrun
      exact absurd hrun.2.symm hne
    · intro h
      exact absurd h hk

lemma oneShotClosureRun_full (b1 : Bool) (hdr body : List Char) :
    ∃ e, (oneShotClosureRun
        { hasOnStart := b1, hasOnSuccess := true, hasOnError := true, hasOnEnd := true }
        hdr body).events = [e, Event.onEnd] ∧
      ((∃ bd, e = Event.onSuccess bd) ∨ (∃ c m, e = Event.onError c m)) := by
  unfold oneShotClosureRun
  rcases h : getResponseProperty hdr (("code").data) with _ | c
  · refine ⟨Event.onSuccess body, ?_, Or.inl ⟨body, rfl⟩⟩
    simp [h]
  · refine ⟨Event.onError c (getResponseProperty hdr (("message").data)), ?_,
      Or.inr ⟨_, _, rfl⟩⟩
    simp [h]

/-- C3: a one-shot call registered by asyncSend under operator op and
sequence now is keyed by crc32(op) + now; an inbound frame with
operatorCode crc32(op) and sequence now fires exactly one of
onSuccess / onError followed by exactly one onEnd, the registry entry
under that key is removed, and redelivering the identical frame is
dropped without invoking any hook. -/
theorem c3_one_shot :
    ∀ (crc32 : String → Nat) (reg0 : Registry) (rh param : List Char) (op : String)
      (b1 : Bool) (now hl bl : Nat) (hdr body : List Char),
      (asyncSendRun crc32 (initState reg0 rh) op param
          { hasOnStart := b1, hasOnSuccess := true, hasOnError := true, hasOnEnd := true }
          now).err = none ∧
      (asyncSendRun crc32 (initState reg0 rh) op param
          { hasOnStart := b1, hasOnSuccess := true, hasOnError := true, hasOnEnd := true }
          now).sends =
        [{ operator := crc32 op, sequence := now, header := some rh, body := param }] ∧
      ∃ e st1,
        onMessagePacket
            (asyncSendRun crc32 (initState reg0 rh) op param
              { hasOnStart := b1, hasOnSuccess := true, hasOnError := true, hasOnEnd := true }
              now).st
            { operator := crc32 op, sequence := now, headerLength := hl, bodyLength := bl,
              header := hdr, body := body } =
          Except.ok (st1, [e, Event.onEnd]) ∧
        ((∃ bd, e = Event.onSuccess bd) ∨ (∃ c m, e = Event.onError c m)) ∧
        st1.requestCallback =
          some (regDelete
            (regSet reg0 (crc32 op + now)
              (Entry.oneShot
                { hasOnStart := b1, hasOnSuccess := true, hasOnError := true, hasOnEnd := true }))
            (crc32 op + now)) ∧
        onMessagePacket st1
            { operator := crc32 op, sequence := now, headerLength := hl, bodyLength := bl,
              header := hdr, body := body } =
          Except.ok (st1, []) := by
  intro crc32 reg0 rh param op b1 now hl bl hdr body
  refine ⟨rfl, rfl, ?_⟩
  rcases oneShotClosureRun_full b1 hdr (dispatchBody body) with ⟨e, hev, hshape⟩
  have hget : regGet
      (regSet reg0 (crc32 op + now)
        (Entry.oneShot
          { hasOnStart := b1, hasOnSuccess := true, hasOnError := true, hasOnEnd := true }))
      (crc32 op + now) =
      some (Entry.oneShot
        { hasOnStart := b1, hasOnSuccess := true, hasOnError := true, hasOnEnd := true }) :=
    regGet_regSet _ _ _
  have hrc : (asyncSendRun crc32 (initState reg0 rh) op param
      { hasOnStart := b1, hasOnSuccess := true, hasOnError := true, hasOnEnd := true }
      now).st.requestCallback =
      some (regSet reg0 (crc32 op + now)
        (Entry.oneShot
          { hasOnStart := b1, hasOnSuccess := true, hasOnError := true, hasOnEnd := true })) := rfl
  have hdisp := onMessagePacket_oneShot _ _
    { operator := crc32 op, sequence := now, headerLength := hl, bodyLength := bl,
      header := hdr, body := body } _ hrc hget
  rw [hev] at hdisp
  refine ⟨e, _, hdisp, hshape, rfl, ?_⟩
  exact onMessagePacket_miss _ _ _ rfl (regGet_regDelete _ _)

lemma splitOnChar_sep_cons (sep : Char) (r : List Char) :
    splitOnChar sep (sep :: r) = [] :: splitOnChar sep r := by
  simp [splitOnChar]

lemma splitOnChar_nosep (sep : Char) (a : List Char) (h : sep ∉ a) :
    splitOnChar sep a = [a] := by
  induction a with
  | nil => rfl
  | cons c cs ih =>
    have hc : ¬ c = sep := by
      intro hh
      exact h (hh ▸ List.mem_cons_self c cs)
    conv_lhs => rw [splitOnChar]
    rw [if_neg hc, ih (fun hm => h (List.mem_cons_of_mem _ hm))]
    rfl

lemma splitOnChar_append_sep (sep : Char) (a r : List Char) (h : sep ∉ a) :
    splitOnChar sep (a ++ sep :: r) = a :: splitOnChar sep r := by
  induction a with
  | nil =>
    simp only [List.nil_append]
    exact splitOnChar_sep_cons sep r
  | cons c cs ih =>
    have hc : ¬ c = sep := by
      intro hh
      exact h (hh ▸ List.mem_cons_self c cs)
    simp only [List.cons_append]
    conv_lhs => rw [splitOnChar]
    rw [if_neg hc, ih (fun hm => h (List.mem_cons_of_mem _ hm))]
    rfl

lemma splitOnChar_token (a b : List Char) (ha : '=' ∉ a) (hb : '=' ∉ b) :
    splitOnChar '=' (a ++ '=' :: b) = [a, b] := by
  rw [splitOnChar_append_sep _ _ _ ha, splitOnChar_nosep _ _ hb]

lemma token_semi_not_mem (a b : List Char) (ha : cleanStr a) (hb : cleanStr b) :
    ';' ∉ a ++ '=' :: b := by
  intro hm
  rcases List.mem_append.mp hm with hm | hm
  · exact ha.1 hm
  · rcases List.mem_cons.mp hm with hm | hm
    · cases hm
    · exact hb.1 hm

lemma encodeHeader_cons (p : List Char × List Char) (ts : List (List Char × List Char)) :
    encodeHeader (p :: ts) = p.1 ++ '=' :: (p.2 ++ [';']) ++ encodeHeader ts := by
  simp [encodeHeader]

lemma encodeHeader_append (ts1 ts2 : List (List Char × List Char)) :
    encodeHeader (ts1 ++ ts2) = encodeHeader ts1 ++ encodeHeader ts2 := by
  simp [encodeHeader]

lemma token_regroup (a b r : List Char) :
    a ++ '=' :: (b ++ [';']) ++ r = (a ++ '=' :: b) ++ ';' :: r := by
  simp

lemma splitOnChar_encode (ts : List (List Char × List Char))
    (h : ∀ p ∈ ts, cleanStr p.1 ∧ cleanStr p.2) :
    splitOnChar ';' (encodeHeader ts) = ts.map (fun p => p.1 ++ '=' :: p.2) ++ [[]] := by
  induction ts with
  | nil => rfl
  | cons p ts ih =>
    rw [encodeHeader_cons, token_regroup,
      splitOnChar_append_sep _ _ _
        (token_semi_not_mem p.1 p.2 (h p (List.mem_cons_self p ts)).1 (h p (List.mem_cons_self p ts)).2),
      ih (fun q hq => h q (List.mem_cons_of_mem _ hq))]
    rfl

lemma findSome?_tokens (k : List Char) :
    ∀ ts : List (List Char × List Char), (∀ p ∈ ts, cleanStr p.1 ∧ cleanStr p.2) →
      (((ts.map (fun p : List Char × List Char => p.1 ++ '=' :: p.2) ++ [[]]).findSome? fun t =>
          if (splitOnChar '=' t)[0]? = some k then some (splitOnChar '=' t)[1]? else none).bind
        id) =
        (ts.find? fun p => p.1 == k).map Prod.snd := by
  intro ts
  induction ts with
  | nil =>
    intro _
    rcases k with _ | ⟨c, cs⟩
    · decide
    · simp [splitOnChar]
  | cons p ts ih =>
    intro h
    have hp := h p (List.mem_cons_self p ts)
    have htok : splitOnChar '=' (p.1 ++ '=' :: p.2) = [p.1, p.2] :=
      splitOnChar_token p.1 p.2 hp.1.2 hp.2.2
    by_cases hk : p.1 = k
    · simp only [List.map_cons, List.cons_append, List.findSome?_cons, htok]
      rw [if_pos (by rw [hk]; simp)]
      simp only [Option.bind_some]
      rw [List.find?_cons_of_pos _ (by simp [hk])]
      rfl
    · simp only [List.map_cons, List.cons_append, List.findSome?_cons, htok]
      rw [if_neg (by simp [hk])]
      rw [List.find?_cons_of_neg _ (by simp [hk])]
      exact ih (fun q hq => h q (List.mem_cons_of_mem _ hq))

lemma getRequestProperty_encode (ts : List (List Char × List Char)) (k : List Char)
    (h : ∀ p ∈ ts, cleanStr p.1 ∧ cleanStr p.2) :
    getRequestProperty (encodeHeader ts) k = (ts.find? fun p => p.1 == k).map Prod.snd := by
  unfold getRequestProperty propFind
  rw [splitOnChar_encode ts h]
  exact findSome?_tokens k ts h

lemma mem_of_getElem?_be {l : List Char} {n : Nat} {a : Char} (h : l[n]? = some a) : a ∈ l := by
  rcases List.getElem?_eq_some.mp h with ⟨hn, he⟩
  exact he ▸ List.getElem_mem hn

lemma char_at_unique (x y : List Char) (c : Char) (hx : c ∉ x) (hy : c ∉ y) (j : Nat) :
    (x ++ c :: y)[j]? = some c ↔ j = x.length := by
  constructor
  · intro h
    rcases Nat.lt_trichotomy j x.length with hj | hj | hj
    · rw [List.getElem?_append_left hj] at h
      exact absurd (mem_of_getElem?_be h) hx
    · exact hj
    · rw [List.getElem?_append_right (Nat.le_of_lt hj)] at h
      obtain ⟨m, hm⟩ : ∃ m, j - x.length = m + 1 := ⟨j - x.length - 1, by omega⟩
      rw [hm] at h
      simp only [List.getElem?_cons_succ] at h
      exact absurd (mem_of_getElem?_be h) hy
  · intro h
    subst h
    rw [List.getElem?_append_right (Nat.le_refl _)]
    simp

lemma jsReplaceFirst_no_occ (pat : List Char) :
    ∀ s : List Char, (∀ i, pat.isPrefixOf (s.drop i) = false) → jsReplaceFirst s pat = s := by
  intro s
  induction s with
  | nil => intro _; rfl
  | cons c cs ih =>
    intro h
    unfold jsReplaceFirst
    have h0 := h 0
    rw [List.drop_zero] at h0
    rw [if_neg (by simp [h0])]
    have hcs : ∀ i, pat.isPrefixOf (cs.drop i) = false := fun i => h (i + 1)
    rw [ih hcs]

lemma jsReplaceFirst_head (pat s : List Char) (hne : pat ≠ []) :
    jsReplaceFirst (pat ++ s) pat = s := by
  rcases pat with _ | ⟨c, cs⟩
  · exact absurd rfl hne
  · show jsReplaceFirst (c :: (cs ++ s)) (c :: cs) = s
    unfold jsReplaceFirst
    rw [if_pos]
    · show (c :: (cs ++ s)).drop (cs.length + 1) = s
      rw [List.drop_succ_cons]
      exact List.drop_left cs s
    · exact List.isPrefixOf_iff_prefix.mpr ⟨s, by simp⟩

lemma jsReplaceFirst_at (pat : List Char) (hne : pat ≠ []) :
    ∀ (p s : List Char), (∀ i, i < p.length → pat.isPrefixOf ((p ++ (pat ++ s)).drop i) = false) →
      jsReplaceFirst (p ++ (pat ++ s)) pat = p ++ s := by
  intro p
  induction p with
  | nil =>
    intro s _
    simp only [List.nil_append]
    exact jsReplaceFirst_head pat s hne
  | cons c p' ih =>
    intro s h
    simp only [List.cons_append]
    unfold jsReplaceFirst
    have h0 := h 0 (by simp)
    rw [List.drop_zero, List.cons_append] at h0
    rw [if_neg (by simp [h0])]
    have h' : ∀ i, i < p'.length → pat.isPrefixOf ((p' ++ (pat ++ s)).drop i) = false := by
      intro i hi
      have := h (i + 1) (by simp; omega)
      rw [List.cons_append, List.drop_succ_cons] at this
      exact this
    rw [ih s h']

lemma patOf_ne_nil (k w : List Char) : patOf k w ≠ [] := by
  simp [patOf]

lemma patOf_length (k w : List Char) : (patOf k w).length = k.length + w.length + 2 := by
  unfold patOf
  rw [List.length_append, List.length_cons, List.length_append]
  simp
  omega

lemma semi_not_mem_eq_token (k w : List Char) (hk : cleanStr k) (hw : cleanStr w) :
    ';' ∉ k ++ '=' :: w := by
  intro hm
  rcases List.mem_append.mp hm with hm | hm
  · exact hk.1 hm
  · rcases List.mem_cons.mp hm with hm | hm
    · exact absurd hm (by decide)
    · exact hw.1 hm

lemma eq_append_align (a b u k w : List Char) (ha : '=' ∉ a) (hb : '=' ∉ b)
    (heq : a ++ '=' :: b = u ++ (k ++ '=' :: w)) : b = w ∧ k <:+ a := by
  have hre : u ++ (k ++ '=' :: w) = (u ++ k) ++ '=' :: w := by simp
  rw [hre] at heq
  have hval : (a ++ '=' :: b)[(u ++ k).length]? = some '=' := by
    rw [heq, List.getElem?_append_right (Nat.le_refl _)]
    simp
  have hlen : (u ++ k).length = a.length := (char_at_unique a b '=' ha hb _).mp hval
  obtain ⟨h1, h2⟩ := List.append_inj heq hlen.symm
  refine ⟨?_, ⟨u, h1.symm⟩⟩
  injection h2

lemma tok_no_occur (a b k w r : List Char)
    (ha : cleanStr a) (hb : cleanStr b) (hk : cleanStr k) (hw : cleanStr w)
    (hno : ¬ (k <:+ a ∧ b = w)) (i : Nat)
    (hi : i < (a ++ '=' :: (b ++ [';'])).length) :
    (patOf k w).isPrefixOf (((a ++ '=' :: (b ++ [';'])) ++ r).drop i) = false := by
  set t := a ++ '=' :: (b ++ [';']) with ht
  have hlab : (a ++ '=' :: b).length = a.length + b.length + 1 := by
    rw [List.length_append, List.length_cons]
    omega
  have htalt : t = (a ++ '=' :: b) ++ ';' :: [] := by
    rw [ht]; simp
  have htlen : t.length = a.length + b.length + 2 := by
    rw [htalt, List.length_append, hlab]
    simp
  have hplen : (patOf k w).length = k.length + w.length + 2 := patOf_length k w
  rw [htlen] at hi
  by_contra hcon
  rw [Bool.not_eq_false] at hcon
  obtain ⟨z, hz⟩ := List.isPrefixOf_iff_prefix.mp hcon
  have hat : ∀ j, j < (patOf k w).length → (t ++ r)[i + j]? = (patOf k w)[j]? := by
    intro j hj
    rw [← List.getElem?_drop, ← hz, List.getElem?_append_left hj]
  have hplast_iff : ∀ j, (patOf k w)[j]? = some ';' ↔ j = k.length + w.length + 1 := by
    intro j
    have hpalt : patOf k w = (k ++ '=' :: w) ++ ';' :: [] := by
      unfold patOf; simp
    rw [hpalt]
    have h1 := char_at_unique (k ++ '=' :: w) [] ';' (semi_not_mem_eq_token k w hk hw) (by simp) j
    rw [h1, List.length_append, List.length_cons]
    omega
  have htiff : ∀ j, t[j]? = some ';' ↔ j = a.length + b.length + 1 := by
    intro j
    conv_lhs => rw [htalt]
    have h1 := char_at_unique (a ++ '=' :: b) [] ';' (semi_not_mem_eq_token a b ha hb) (by simp) j
    rw [h1, hlab]
  have htlast : (t ++ r)[a.length + b.length + 1]? = some ';' := by
    rw [List.getElem?_append_left (by omega)]
    exact (htiff _).mpr rfl
  rcases Nat.lt_trichotomy (i + (patOf k w).length) t.length with hcase | hcase | hcase
  · -- pattern ends strictly inside the token: its final ; would sit inside
    -- a ++ '=' :: b, which contains no ;
    rw [htlen, hplen] at hcase
    have h1 := hat (k.length + w.length + 1) (by rw [hplen]; omega)
    rw [(hplast_iff _).mpr rfl] at h1
    have h3 : i + (k.length + w.length + 1) < t.length := by rw [htlen]; omega
    rw [List.getElem?_append_left h3] at h1
    have h4 := (htiff _).mp h1
    omega
  · -- pattern is exactly a suffix of the token: alignment forces k to be a
    -- suffix of a with b = w, which hno excludes
    have hile : i ≤ t.length := by omega
    have hdrop : (t ++ r).drop i = t.drop i ++ r := List.drop_append_of_le_length hile
    rw [hdrop] at hz
    have hlendrop : (patOf k w).length = (t.drop i).length := by
      rw [List.length_drop, hplen, htlen]
      rw [htlen, hplen] at hcase
      omega
    obtain ⟨hpat, _⟩ := List.append_inj hz hlendrop
    have hsplit : t.take i ++ patOf k w = t := by
      rw [hpat, List.take_append_drop]
    have heq2 : (a ++ '=' :: b) ++ ';' :: [] = (t.take i ++ (k ++ '=' :: w)) ++ ';' :: [] := by
      calc (a ++ '=' :: b) ++ ';' :: [] = t := htalt.symm
        _ = t.take i ++ patOf k w := hsplit.symm
        _ = (t.take i ++ (k ++ '=' :: w)) ++ ';' :: [] := by unfold patOf; simp
    have hcancel : a ++ '=' :: b = t.take i ++ (k ++ '=' :: w) :=
      List.append_cancel_right heq2
    obtain ⟨hbw, hka⟩ := eq_append_align a b _ k w ha.2 hb.2 hcancel
    exact hno ⟨hka, hbw⟩
  · -- pattern starts inside the token and runs past it: the token terminator ;
    -- would sit strictly inside the pattern interior, which contains no ;
    rw [htlen, hplen] at hcase
    have hj0lt : a.length + b.length + 1 - i < (patOf k w).length := by
      rw [hplen]; omega
    have h1 := hat (a.length + b.length + 1 - i) hj0lt
    have hidx : i + (a.length + b.length + 1 - i) = a.length + b.length + 1 := by omega
    rw [hidx, htlast] at h1
    have h2 := (hplast_iff _).mp h1.symm
    omega

lemma isPrefixOf_nil_false (pat : List Char) (hne : pat ≠ []) :
    pat.isPrefixOf ([] : List Char) = false := by
  rcases pat with _ | ⟨c, cs⟩
  · exact absurd rfl hne
  · rfl

lemma encodeHeader_cons2 (p : List Char × List Char) (ts : List (List Char × List Char)) :
    encodeHeader (p :: ts) = (p.1 ++ '=' :: (p.2 ++ [';'])) ++ encodeHeader ts := by
  simp [encodeHeader]

lemma no_early_occur (k w : List Char) (hk : cleanStr k) (hw : cleanStr w) :
    ∀ (ts : List (List Char × List Char)) (r : List Char),
      (∀ p ∈ ts, cleanStr p.1 ∧ cleanStr p.2) →
      (∀ p ∈ ts, ¬ (k <:+ p.1 ∧ p.2 = w)) →
      ∀ i, i < (encodeHeader ts).length →
        (patOf k w).isPrefixOf ((encodeHeader ts ++ r).drop i) = false := by
  intro ts
  induction ts with
  | nil =>
    intro r _ _ i hi
    simp [encodeHeader] at hi
  | cons p ts ih =>
    intro r hclean hno i hi
    have hmem := List.mem_cons_self p ts
    rw [encodeHeader_cons2] at hi ⊢
    rw [List.append_assoc]
    by_cases hit : i < (p.1 ++ '=' :: (p.2 ++ [';'])).length
    · exact tok_no_occur p.1 p.2 k w (encodeHeader ts ++ r)
        (hclean p hmem).1 (hclean p hmem).2 hk hw (hno p hmem) i hit
    · have hts : i - (p.1 ++ '=' :: (p.2 ++ [';'])).length < (encodeHeader ts).length := by
        rw [List.length_append] at hi
        omega
      have hsplit : i = (p.1 ++ '=' :: (p.2 ++ [';'])).length +
          (i - (p.1 ++ '=' :: (p.2 ++ [';'])).length) := by omega
      rw [hsplit, List.drop_append]
      exact ih r (fun q hq => hclean q (List.mem_cons_of_mem _ hq))
        (fun q hq => hno q (List.mem_cons_of_mem _ hq)) _ hts

lemma removeFirst_middle (ts1 ts2 : List (List Char × List Char)) (k vk : List Char)
    (hclean1 : ∀ p ∈ ts1, cleanStr p.1 ∧ cleanStr p.2)
    (hk : cleanStr k) (hvk : cleanStr vk)
    (hno : ∀ p ∈ ts1, ¬ (k <:+ p.1 ∧ p.2 = vk)) :
    jsReplaceFirst (encodeHeader (ts1 ++ (k, vk) :: ts2)) (patOf k vk) =
      encodeHeader ts1 ++ encodeHeader ts2 := by
  have hform : encodeHeader (ts1 ++ (k, vk) :: ts2) =
      encodeHeader ts1 ++ (patOf k vk ++ encodeHeader ts2) := by
    rw [encodeHeader_append, encodeHeader_cons2]
    rfl
  rw [hform]
  apply jsReplaceFirst_at (patOf k vk) (patOf_ne_nil k vk)
  intro i hilen
  exact no_early_occur k vk hk hvk ts1 (patOf k vk ++ encodeHeader ts2) hclean1 hno i hilen

lemma removeFirst_absent (ts : List (List Char × List Char)) (k w : List Char)
    (hclean : ∀ p ∈ ts, cleanStr p.1 ∧ cleanStr p.2)
    (hk : cleanStr k) (hw : cleanStr w)
    (hno : ∀ p ∈ ts, ¬ (k <:+ p.1 ∧ p.2 = w)) :
    jsReplaceFirst (encodeHeader ts) (patOf k w) = encodeHeader ts := by
  apply jsReplaceFirst_no_occ
  intro i
  by_cases hi : i < (encodeHeader ts).length
  · have h1 := no_early_occur k w hk hw ts [] hclean hno i hi
    rw [List.append_nil] at h1
    exact h1
  · rw [List.drop_eq_nil_of_le (by omega)]
    exact isPrefixOf_nil_false _ (patOf_ne_nil k w)

lemma find?_append_of_none {α : Type} {p : α → Bool} {l1 l2 : List α}
    (h : l1.find? p = none) : (l1 ++ l2).find? p = l2.find? p := by
  induction l1 with
  | nil => rfl
  | cons a l ih =>
    cases ha : p a with
    | true =>
      rw [List.find?_cons_of_pos _ ha] at h
      cases h
    | false =>
      rw [List.find?_cons_of_neg _ (by simp [ha])] at h
      rw [List.cons_append, List.find?_cons_of_neg _ (by simp [ha])]
      exact ih h

lemma undefinedStr_clean : cleanStr undefinedStr := by decide

lemma setRequestProperty_absent (ts : List (List Char × List Char)) (k v : List Char)
    (hclean : ∀ p ∈ ts, cleanStr p.1 ∧ cleanStr p.2)
    (hk : cleanStr k)
    (habs : ∀ p ∈ ts, p.1 ≠ k) (hsuf : ∀ p ∈ ts, ¬ k <:+ p.1) :
    setRequestProperty (encodeHeader ts) k v = encodeHeader (ts ++ [(k, v)]) := by
  have hget : getRequestProperty (encodeHeader ts) k = none := by
    rw [getRequestProperty_encode ts k hclean]
    rw [List.find?_eq_none.mpr (fun p hp => by simp [habs p hp])]
    rfl
  have hstep : setRequestProperty (encodeHeader ts) k v =
      jsReplaceFirst (encodeHeader ts) (patOf k undefinedStr) ++ k ++ '=' :: (v ++ [';']) := by
    unfold setRequestProperty
    rw [hget]
    rfl
  rw [hstep,
    removeFirst_absent ts k undefinedStr hclean hk undefinedStr_clean
      (fun p hp hcontra => hsuf p hp hcontra.1)]
  simp [encodeHeader]

lemma setRequestProperty_present (ts1 ts2 : List (List Char × List Char)) (k vk v : List Char)
    (hclean : ∀ p ∈ ts1 ++ (k, vk) :: ts2, cleanStr p.1 ∧ cleanStr p.2)
    (hk : cleanStr k)
    (habs1 : ∀ p ∈ ts1, p.1 ≠ k) (hsuf1 : ∀ p ∈ ts1, ¬ k <:+ p.1) :
    setRequestProperty (encodeHeader (ts1 ++ (k, vk) :: ts2)) k v =
      encodeHeader ((ts1 ++ ts2) ++ [(k, v)]) := by
  have hclean1 : ∀ p ∈ ts1, cleanStr p.1 ∧ cleanStr p.2 :=
    fun p hp => hclean p (List.mem_append_left _ hp)
  have hvk : cleanStr vk :=
    (hclean (k, vk) (List.mem_append_right _ (List.mem_cons_self _ _))).2
  have hget : getRequestProperty (encodeHeader (ts1 ++ (k, vk) :: ts2)) k = some vk := by
    rw [getRequestProperty_encode _ k hclean]
    rw [find?_append_of_none (List.find?_eq_none.mpr (fun p hp => by simp [habs1 p hp]))]
    rw [List.find?_cons_of_pos _ (by simp)]
    rfl
  have hstep : setRequestProperty (encodeHeader (ts1 ++ (k, vk) :: ts2)) k v =
      jsReplaceFirst (encodeHeader (ts1 ++ (k, vk) :: ts2)) (patOf k vk) ++
        k ++ '=' :: (v ++ [';']) := by
    unfold setRequestProperty
    rw [hget]
    rfl
  rw [hstep,
    removeFirst_middle ts1 ts2 k vk hclean1 hk hvk
      (fun p hp hcontra => hsuf1 p hp hcontra.1)]
  simp [encodeHeader]

lemma key_split (k : List Char) :
    ∀ ts : List (List Char × List Char), (ts.filter fun p => p.1 == k).length ≤ 1 →
      (∀ p ∈ ts, p.1 ≠ k) ∨
      ∃ ts1 vk ts2, ts = ts1 ++ (k, vk) :: ts2 ∧
        (∀ p ∈ ts1, p.1 ≠ k) ∧ (∀ p ∈ ts2, p.1 ≠ k) := by
  intro ts
  induction ts with
  | nil =>
    intro _
    left
    simp
  | cons p ts ih =>
    intro h
    by_cases hp : p.1 = k
    · right
      refine ⟨[], p.2, ts, ?_, by simp, ?_⟩
      · rw [List.nil_append, ← hp]
      · rw [List.filter_cons_of_pos (by simp [hp])] at h
        simp only [List.length_cons] at h
        have hnil : (ts.filter fun q => q.1 == k) = [] :=
          List.length_eq_zero.mp (by omega)
        intro q hq hqk
        have hmem : q ∈ ts.filter fun q => q.1 == k :=
          List.mem_filter.mpr ⟨hq, by simp [hqk]⟩
        rw [hnil] at hmem
        cases hmem
    · rw [List.filter_cons_of_neg (by simp [hp])] at h
      rcases ih h with hl | ⟨ts1, vk, ts2, heq, h1, h2⟩
      · left
        intro q hq
        rcases List.mem_cons.mp hq with hq' | hq'
        · rw [hq']; exact hp
        · exact hl q hq'
      · right
        refine ⟨p :: ts1, vk, ts2, by rw [heq, List.cons_append], ?_, h2⟩
        intro q hq
        rcases List.mem_cons.mp hq with hq' | hq'
        · rw [hq']; exact hp
        · exact h1 q hq'

lemma getRequestProperty_tail (base : List (List Char × List Char)) (k v : List Char)
    (hclean : ∀ p ∈ base, cleanStr p.1 ∧ cleanStr p.2)
    (hk : cleanStr k) (hv : cleanStr v)
    (habs : ∀ p ∈ base, p.1 ≠ k) :
    getRequestProperty (encodeHeader (base ++ [(k, v)])) k = some v := by
  have hcleanall : ∀ p ∈ base ++ [(k, v)], cleanStr p.1 ∧ cleanStr p.2 := by
    intro p hp
    rcases List.mem_append.mp hp with hp | hp
    · exact hclean p hp
    · rcases List.mem_cons.mp hp with hp | hp
      · rw [hp]; exact ⟨hk, hv⟩
      · cases hp
  rw [getRequestProperty_encode _ _ hcleanall]
  rw [find?_append_of_none (List.find?_eq_none.mpr (fun p hp => by simp [habs p hp]))]
  rw [List.find?_cons_of_pos _ (by simp)]
  rfl

/-- C6 amended: the Set k v1; Set k v2; Get k == v2 law and the
no-duplicate and order-preservation guarantees hold provided,
additionally, that k occurs as a key at most once in the header state
and that no other key in the state has k as a suffix; without those
conditions the substring-based removal in setRequestProperty can match
inside another token (see the counterexample). -/
theorem c6_set_set_get :
    ∀ (ts : List (List Char × List Char)) (k v1 v2 : List Char),
      (∀ p ∈ ts, cleanStr p.1 ∧ cleanStr p.2) →
      cleanStr k → cleanStr v1 → cleanStr v2 →
      (ts.filter fun p => p.1 == k).length ≤ 1 →
      (∀ p ∈ ts, p.1 ≠ k → ¬ k <:+ p.1) →
      setRequestProperty (setRequestProperty (encodeHeader ts) k v1) k v2 =
        encodeHeader ((ts.filter fun p => !(p.1 == k)) ++ [(k, v2)]) ∧
      getRequestProperty
          (setRequestProperty (setRequestProperty (encodeHeader ts) k v1) k v2) k =
        some v2 := by
  intro ts k v1 v2 hclean hk hv1 hv2 huniq hsuf
  rcases key_split k ts huniq with habs | ⟨ts1, vk, ts2, heq, h1, h2⟩
  · have hsuf' : ∀ p ∈ ts, ¬ k <:+ p.1 := fun p hp => hsuf p hp (habs p hp)
    have hstep1 := setRequestProperty_absent ts k v1 hclean hk habs hsuf'
    have hclean2 : ∀ p ∈ ts ++ (k, v1) :: [], cleanStr p.1 ∧ cleanStr p.2 := by
      intro p hp
      rcases List.mem_append.mp hp with hp | hp
      · exact hclean p hp
      · rcases List.mem_cons.mp hp with hp | hp
        · rw [hp]; exact ⟨hk, hv1⟩
        · cases hp
    have hstep2 := setRequestProperty_present ts [] k v1 v2 hclean2 hk habs hsuf'
    have hfilter : (ts.filter fun p => !(p.1 == k)) = ts :=
      List.filter_eq_self.mpr (fun p hp => by simp [habs p hp])
    rw [List.append_nil] at hstep2
    constructor
    · rw [hstep1, hstep2, hfilter]
    · rw [hstep1, hstep2]
      exact getRequestProperty_tail ts k v2 hclean hk hv2 habs
  · subst heq
    have hclean1 : ∀ p ∈ ts1, cleanStr p.1 ∧ cleanStr p.2 :=
      fun p hp => hclean p (List.mem_append_left _ hp)
    have hclean2 : ∀ p ∈ ts2, cleanStr p.1 ∧ cleanStr p.2 :=
      fun p hp => hclean p (List.mem_append_right _ (List.mem_cons_of_mem _ hp))
    have hsuf1 : ∀ p ∈ ts1, ¬ k <:+ p.1 :=
      fun p hp => hsuf p (List.mem_append_left _ hp) (h1 p hp)
    have hsuf2 : ∀ p ∈ ts2, ¬ k <:+ p.1 :=
      fun p hp => hsuf p (List.mem_append_right _ (List.mem_cons_of_mem _ hp)) (h2 p hp)
    have habs12 : ∀ p ∈ ts1 ++ ts2, p.1 ≠ k := by
      intro p hp
      rcases List.mem_append.mp hp with hp | hp
      · exact h1 p hp
      · exact h2 p hp
    have hsuf12 : ∀ p ∈ ts1 ++ ts2, ¬ k <:+ p.1 := by
      intro p hp
      rcases List.mem_append.mp hp with hp | hp
      · exact hsuf1 p hp
      · exact hsuf2 p hp
    have hclean12 : ∀ p ∈ ts1 ++ ts2, cleanStr p.1 ∧ cleanStr p.2 := by
      intro p hp
      rcases List.mem_append.mp hp with hp | hp
      · exact hclean1 p hp
      · exact hclean2 p hp
    have hstep1 := setRequestProperty_present ts1 ts2 k vk v1 hclean hk h1 hsuf1
    have hclean12v : ∀ p ∈ (ts1 ++ ts2) ++ (k, v1) :: [], cleanStr p.1 ∧ cleanStr p.2 := by
      intro p hp
      rcases List.mem_append.mp hp with hp | hp
      · exact hclean12 p hp
      · rcases List.mem_cons.mp hp with hp | hp
        · rw [hp]; exact ⟨hk, hv1⟩
        · cases hp
    have hstep2 := setRequestProperty_present (ts1 ++ ts2) [] k v1 v2 hclean12v hk habs12 hsuf12
    rw [List.append_nil] at hstep2
    have hfilter : ((ts1 ++ (k, vk) :: ts2).filter fun p => !(p.1 == k)) = ts1 ++ ts2 := by
      rw [List.filter_append, List.filter_cons_of_neg (by simp)]
      rw [List.filter_eq_self.mpr (fun p hp => by simp [h1 p hp]),
        List.filter_eq_self.mpr (fun p hp => by simp [h2 p hp])]
    constructor
    · rw [hstep1, hstep2, hfilter]
    · rw [hstep1, hstep2]
      exact getRequestProperty_tail (ts1 ++ ts2) k v2 hclean12 hk hv2 habs12

/-- C6: the claim asserts Set(k,v1); Set(k,v2); Get(k) == v2 with no
duplicate token for every well-formed header state.  Starting from the
well-formed state ak=5;b=2; (distinct clean keys), Set(k,5) appends
k=5;, but Set(k,7) removes the first substring occurrence of k=5;,
which begins inside the token ak=5;, corrupting the header to
ab=2;k=5;k=7;: Get(k) returns 5, not 7, and the k= token is
duplicated. -/
theorem c6_counterexample :
    (∀ p ∈ [((("ak").data, ("5").data)), ((("b").data, ("2").data))],
      cleanStr p.1 ∧ cleanStr p.2) ∧
    cleanStr (("k").data) ∧ cleanStr (("5").data) ∧ cleanStr (("7").data) ∧
    encodeHeader [((("ak").data, ("5").data)), ((("b").data, ("2").data))] =
      ("ak=5;b=2;").data ∧
    setRequestProperty (setRequestProperty (("ak=5;b=2;").data) (("k").data) (("5").data))
        (("k").data) (("7").data) = ("ab=2;k=5;k=7;").data ∧
    getRequestProperty (("ab=2;k=5;k=7;").data) (("k").data) = some (("5").data) ∧
    some (("5").data) ≠ some (("7").data) ∧
    ((splitOnChar ';' (("ab=2;k=5;k=7;").data)).countP
        (fun t => (splitOnChar '=' t)[0]? == some (("k").data))) = 2 := by
  decide

/-- Witness for c6_set_set_get at a concrete well-formed state. -/
theorem c6_set_set_get_witness :
    (∀ p ∈ [((("a").data, ("1").data))], cleanStr p.1 ∧ cleanStr p.2) ∧
    cleanStr (("k").data) ∧ cleanStr (("5").data) ∧ cleanStr (("7").data) ∧
    ([((("a").data, ("1").data))].filter fun p => p.1 == ("k").data).length ≤ 1 ∧
    (∀ p ∈ [((("a").data, ("1").data))], p.1 ≠ ("k").data → ¬ ("k").data <:+ p.1) ∧
    (setRequestProperty
        (setRequestProperty (encodeHeader [((("a").data, ("1").data))]) (("k").data)
          (("5").data))
        (("k").data) (("7").data) =
      encodeHeader
        (([((("a").data, ("1").data))].filter fun p => !(p.1 == ("k").data)) ++
          [((("k").data, ("7").data))]) ∧
    getRequestProperty
        (setRequestProperty
          (setRequestProperty (encodeHeader [((("a").data, ("1").data))]) (("k").data)
            (("5").data))
          (("k").data) (("7").data))
        (("k").data) =
      some (("7").data)) := by
  have h1 : ∀ p ∈ [((("a").data, ("1").data))], cleanStr p.1 ∧ cleanStr p.2 := by decide
  have h2 : cleanStr (("k").data) := by decide
  have h3 : cleanStr (("5").data) := by decide
  have h4 : cleanStr (("7").data) := by decide
  have h5 : ([((("a").data, ("1").data))].filter fun p => p.1 == ("k").data).length ≤ 1 := by
    decide
  have h6 : ∀ p ∈ [((("a").data, ("1").data))], p.1 ≠ ("k").data → ¬ ("k").data <:+ p.1 := by
    decide
  exact ⟨h1, h2, h3, h4, h5, h6, c6_set_set_get _ _ _ _ h1 h2 h3 h4 h5 h6⟩
